import Mathlib

/-!
Verification of the phosphor-signaling connection registry and emission
engine (`src/index.ts`).

The JavaScript heap is embedded shallowly: `Connection` and
`ConnectionList` objects live in arenas (`St.conns`, `St.lists`) and are
addressed by `Nat` ids, so object identity and aliasing are preserved;
the two `WeakMap`s become association lists keyed by sender / receiver
identity.  Sender, signal, callback and context identities are opaque
`Nat` tokens compared by equality, exactly as the source compares object
references with `===`.

Reentrant callbacks (callbacks that connect, disconnect, emit or throw
during an emission) are modelled by an environment mapping each callback
id to a list of `Action`s, executed by a fuel-indexed interpreter `exec`
whose cases transcribe `invokeList` and `emit` from the source.
-/

namespace Phos

/-- A JavaScript value passed as a `thisArg`: `undefined`, `null`, some
other falsy primitive (`0`, `''`, `false`, ...), or a truthy object
identified by a `Nat` token. -/
inductive TV where
  | undef : TV
  | nullv : TV
  | falsy : Nat → TV
  | obj : Nat → TV
deriving DecidableEq, Repr

/-- The coercion `thisArg = thisArg || void 0` from the source: every
falsy value becomes `undefined` (`none`); a truthy object survives. -/
def TV.norm : TV → Option Nat
  | .obj n => some n
  | _ => none

/-- A receiver identity: either an explicit context object or, when no
context is given, the callback function itself. -/
inductive Rcv where
  | ctxR : Nat → Rcv
  | cbR : Nat → Rcv
deriving DecidableEq, Repr

/-- `let receiver = thisArg || callback` on a normalized context. -/
def receiverOf (ctx : Option Nat) (cb : Nat) : Rcv :=
  match ctx with
  | some n => Rcv.ctxR n
  | none => Rcv.cbR cb

/-- The `Connection` record from the source: signal token, callback
(`none` once the connection is dead), normalized context, and the three
linkage pointers (ids into the connection arena). -/
structure Connection where
  signal : Nat
  callback : Option Nat
  thisArg : Option Nat
  nextReceiver : Option Nat
  nextSender : Option Nat
  prevSender : Option Nat
deriving DecidableEq, Repr

/-- The `ConnectionList` record: emission ref count and `first`/`last`
pointers into the connection arena. -/
structure ConnectionList where
  refs : Nat
  first : Option Nat
  last : Option Nat
deriving DecidableEq, Repr

/-- The whole mutable heap: the two arenas plus the two weak maps
(`senderMap : sender → ConnectionList` id, `receiverMap : receiver →
head Connection` id). -/
structure St where
  conns : List Connection
  lists : List ConnectionList
  senderMap : List (Nat × Nat)
  receiverMap : List (Rcv × Nat)
deriving DecidableEq, Repr

/-- The empty heap. -/
def st0 : St := ⟨[], [], [], []⟩

/-- Association-list lookup (`WeakMap.get`). -/
def lookupA {α β : Type} [DecidableEq α] : List (α × β) → α → Option β
  | [], _ => none
  | (k, v) :: rest, k' => if k' = k then some v else lookupA rest k'

/-- Association-list insert/replace (`WeakMap.set`). -/
def insertA {α β : Type} [DecidableEq α] : List (α × β) → α → β → List (α × β)
  | [], k, v => [(k, v)]
  | (k0, v0) :: rest, k, v =>
      if k = k0 then (k, v) :: rest else (k0, v0) :: insertA rest k v

/-- Association-list removal (`WeakMap.delete`). -/
def eraseA {α β : Type} [DecidableEq α] : List (α × β) → α → List (α × β)
  | [], _ => []
  | (k0, v0) :: rest, k => if k = k0 then rest else (k0, v0) :: eraseA rest k

/-- Dereference a connection id (ids produced by the operations are
always in range; the default is never reached from reachable states). -/
def getC (s : St) (i : Nat) : Connection :=
  (s.conns.get? i).getD ⟨0, none, none, none, none, none⟩

/-- Overwrite a connection in the arena. -/
def setC (s : St) (i : Nat) (c : Connection) : St :=
  { s with conns := s.conns.set i c }

/-- Dereference a connection-list id. -/
def getL (s : St) (li : Nat) : ConnectionList :=
  (s.lists.get? li).getD ⟨0, none, none⟩

/-- Overwrite a connection list in the arena. -/
def setL (s : St) (li : Nat) (l : ConnectionList) : St :=
  { s with lists := s.lists.set li l }

/-- `findConnection`: walk the sender chain from `cur` looking for a
live record with the given `(signal, callback, thisArg)`; returns its
id.  Fuel bounds the walk (chains in reachable states are acyclic). -/
def findConnection (s : St) (signal cb : Nat) (ctx : Option Nat) :
    Nat → Option Nat → Option Nat
  | 0, _ => none
  | _ + 1, none => none
  | fuel + 1, some i =>
      let c := getC s i
      if c.signal = signal ∧ c.callback = some cb ∧ c.thisArg = ctx then some i
      else findConnection s signal cb ctx fuel c.nextReceiver

/-- The final block of `connect` ("add the connection to the senders
list"): prepend record `i` to the head of `receiver`'s doubly linked
chain and point the receiver map at it. -/
def addToSendersList (s : St) (receiver : Rcv) (i : Nat) : St :=
  let s3 :=
    match lookupA s.receiverMap receiver with
    | some head =>
        let s2a := setC s head { getC s head with prevSender := some i }
        setC s2a i { getC s2a i with nextSender := some head }
    | none => s
  { s3 with receiverMap := insertA s3.receiverMap receiver i }

/-- `connect(sender, signal, callback, thisArg)` from the source. -/
def connect (s : St) (sender signal cb : Nat) (thisArg : TV) : St × Bool :=
  let ctx := thisArg.norm
  let liO := lookupA s.senderMap sender
  let dup :=
    match liO with
    | some li =>
        (findConnection s signal cb ctx (s.conns.length + 1) (getL s li).first).isSome
    | none => false
  if dup then (s, false) else
  let i := s.conns.length
  let conn : Connection := ⟨signal, some cb, ctx, none, none, none⟩
  let s1 : St := { s with conns := s.conns ++ [conn] }
  let s2 :=
    match liO with
    | none =>
        let li := s1.lists.length
        let s1a : St := { s1 with lists := s1.lists ++ [⟨0, some i, some i⟩] }
        { s1a with senderMap := insertA s1a.senderMap sender li }
    | some li =>
        match (getL s1 li).last with
        | none => setL s1 li { getL s1 li with first := some i, last := some i }
        | some l =>
            let s1a := setC s1 l { getC s1 l with nextReceiver := some i }
            setL s1a li { getL s1a li with last := some i }
  (addToSendersList s2 (receiverOf ctx cb) i, true)

/-- `conn.thisArg || conn.callback` used by `removeFromSendersList` to
recover the receiver identity; `none` when both fields are null. -/
def recvOfConn (c : Connection) : Option Rcv :=
  match c.thisArg, c.callback with
  | some n, _ => some (Rcv.ctxR n)
  | none, some cb => some (Rcv.cbR cb)
  | none, none => none

/-- `removeFromSendersList`: unlink a connection from its receiver's
doubly linked chain, fixing neighbours and the `receiverMap` entry. -/
def removeFromSendersList (s : St) (i : Nat) : St :=
  let c := getC s i
  match recvOfConn c with
  | none => s
  | some receiver =>
      let s1 :=
        match c.prevSender, c.nextSender with
        | none, none => { s with receiverMap := eraseA s.receiverMap receiver }
        | none, some nx =>
            let sa : St := { s with receiverMap := insertA s.receiverMap receiver nx }
            setC sa nx { getC sa nx with prevSender := none }
        | some pv, none => setC s pv { getC s pv with nextSender := none }
        | some pv, some nx =>
            let sa := setC s pv { getC s pv with nextSender := some nx }
            setC sa nx { getC sa nx with prevSender := some pv }
      setC s1 i { getC s1 i with prevSender := none, nextSender := none }

/-- `disconnect(sender, signal, callback, thisArg)` from the source:
eagerly unlink from the receiver chain, then mark the record dead. -/
def disconnect (s : St) (sender signal cb : Nat) (thisArg : TV) : St × Bool :=
  let ctx := thisArg.norm
  match lookupA s.senderMap sender with
  | none => (s, false)
  | some li =>
      match findConnection s signal cb ctx (s.conns.length + 1) (getL s li).first with
      | none => (s, false)
      | some i =>
          let s1 := removeFromSendersList s i
          let s2 := setC s1 i { getC s1 i with callback := none, thisArg := none }
          (s2, true)

/-- The loop of `cleanList`: rebuild the sender chain keeping only live
records, threading the `prev` pointer of the last live record kept. -/
def cleanGo : Nat → St → Nat → Option Nat → Option Nat → St × Option Nat
  | 0, s, _, prev, _ => (s, prev)
  | _ + 1, s, _, prev, none => (s, prev)
  | fuel + 1, s, li, prev, some i =>
      let c := getC s i
      let next := c.nextReceiver
      if c.callback = none then
        cleanGo fuel (setC s i { c with nextReceiver := none }) li prev next
      else
        match prev with
        | none => cleanGo fuel (setL s li { getL s li with first := some i }) li (some i) next
        | some p =>
            cleanGo fuel (setC s p { getC s p with nextReceiver := some i }) li (some i) next

/-- `cleanList`: drop the dead records from a sender list, relinking
`first`/`last`. -/
def cleanList (s : St) (li : Nat) : St :=
  let r := cleanGo (s.conns.length + 1) s li none (getL s li).first
  match r.2 with
  | none => setL r.1 li { getL r.1 li with first := none, last := none }
  | some p =>
      let sa := setC r.1 p { getC r.1 p with nextReceiver := none }
      setL sa li { getL sa li with last := some p }

/-- The loop of `disconnectSender`: kill every record in the chain,
unlinking each from its receiver chain first. -/
def discSenderGo : Nat → St → Option Nat → St
  | 0, s, _ => s
  | _ + 1, s, none => s
  | fuel + 1, s, some i =>
      let s1 := removeFromSendersList s i
      let s2 := setC s1 i { getC s1 i with callback := none, thisArg := none }
      discSenderGo fuel s2 (getC s2 i).nextReceiver

/-- `disconnectSender(sender)`: bulk-remove all connections where the
given object is the sender, then delete its `senderMap` entry. -/
def disconnectSender (s : St) (sender : Nat) : St :=
  match lookupA s.senderMap sender with
  | none => s
  | some li =>
      let s1 := discSenderGo (s.conns.length + 1) s (getL s li).first
      { s1 with senderMap := eraseA s1.senderMap sender }

/-- The loop of `disconnectReceiver`: kill every record in the receiver
chain (the record stays in its sender list as a dead slot). -/
def discRecvGo : Nat → St → Option Nat → St
  | 0, s, _ => s
  | _ + 1, s, none => s
  | fuel + 1, s, some i =>
      let next := (getC s i).nextSender
      let s1 := setC s i
        { getC s i with callback := none, thisArg := none, prevSender := none, nextSender := none }
      discRecvGo fuel s1 next

/-- `disconnectReceiver(receiver)`: bulk-remove all connections where
the given identity is the receiver, then delete its `receiverMap`
entry. -/
def disconnectReceiver (s : St) (receiver : Rcv) : St :=
  match lookupA s.receiverMap receiver with
  | none => s
  | some head =>
      let s1 := discRecvGo (s.conns.length + 1) s (some head)
      { s1 with receiverMap := eraseA s1.receiverMap receiver }

/-- `clearSignalData(obj)` for an object used as sender id `n`: clear
its sender side and both possible receiver identities are handled by
callers; the claims only need the two bulk operations above. -/
def clearSignalData (s : St) (n : Nat) : St :=
  disconnectReceiver (disconnectSender s n) (Rcv.ctxR n)

/-- What a callback may do when invoked: connect, disconnect, re-emit,
or throw.  A real JS callback is an arbitrary function; the claims only
exercise these effects. -/
inductive Action where
  | connectA : Nat → Nat → Nat → TV → Action
  | disconnectA : Nat → Nat → Nat → TV → Action
  | emitA : Nat → Nat → Action
  | throwA : Action
deriving DecidableEq, Repr

/-- A callback environment: the body of each callback id. -/
abbrev Env := Nat → List Action

/-- The observable trace: each invocation records the callback id and
the `thisArg` it was called with. -/
abbrev Trace := List (Nat × Option Nat)

/-- Result of running an operation: final heap, trace so far, and
whether an exception is propagating. -/
structure Out where
  st : St
  tr : Trace
  exn : Bool
deriving DecidableEq, Repr

/-- Interpreter requests: run a list of actions, run the `invokeList`
walk (current pointer, snapshot `last`, dirty flag), or run `emit`. -/
inductive Req where
  | acts : List Action → Req
  | invokeR : Nat → Nat → Option Nat → Option Nat → Bool → Req
  | emitR : Nat → Nat → Req

/-- The fueled interpreter.  The `invokeR` case transcribes
`invokeList` (dead records set the dirty flag and are skipped; live
records with matching signal are invoked; the walk stops at the `last`
snapshot; the next pointer is read after the callback returns).  The
`emitR` case transcribes `emit` (ref-count increment, walk, ref-count
decrement that also runs when an exception propagates, and deferred
`cleanList` when dirty and no emission is active).  The second
component of the result is `invokeList`'s dirty flag. -/
def exec (env : Env) : Nat → Req → St → Trace → Out × Bool
  | 0, _, s, tr => (⟨s, tr, true⟩, true)
  | fuel + 1, .acts as, s, tr =>
      match as with
      | [] => (⟨s, tr, false⟩, false)
      | .connectA sd g cb ctx :: rest =>
          exec env fuel (.acts rest) (connect s sd g cb ctx).1 tr
      | .disconnectA sd g cb ctx :: rest =>
          exec env fuel (.acts rest) (disconnect s sd g cb ctx).1 tr
      | .emitA sd g :: rest =>
          let o := (exec env fuel (.emitR sd g) s tr).1
          if o.exn then (o, false) else exec env fuel (.acts rest) o.st o.tr
      | .throwA :: _ => (⟨s, tr, true⟩, false)
  | fuel + 1, .invokeR sd g cur last dirty, s, tr =>
      match cur with
      | none => (⟨s, tr, false⟩, dirty)
      | some i =>
          let c := getC s i
          match c.callback with
          | none =>
              if cur = last then (⟨s, tr, false⟩, true)
              else exec env fuel (.invokeR sd g c.nextReceiver last true) s tr
          | some cb =>
              if c.signal = g then
                let o := (exec env fuel (.acts (env cb)) s (tr ++ [(cb, c.thisArg)])).1
                if o.exn then (o, dirty)
                else if cur = last then (⟨o.st, o.tr, false⟩, dirty)
                else exec env fuel (.invokeR sd g (getC o.st i).nextReceiver last dirty) o.st o.tr
              else
                if cur = last then (⟨s, tr, false⟩, dirty)
                else exec env fuel (.invokeR sd g c.nextReceiver last dirty) s tr
  | fuel + 1, .emitR sd g, s, tr =>
      match lookupA s.senderMap sd with
      | none => (⟨s, tr, false⟩, false)
      | some li =>
          let s1 := setL s li { getL s li with refs := (getL s li).refs + 1 }
          let res := exec env fuel (.invokeR sd g (getL s1 li).first (getL s1 li).last false) s1 tr
          let o := res.1
          let s2 := setL o.st li { getL o.st li with refs := (getL o.st li).refs - 1 }
          if o.exn then (⟨s2, o.tr, true⟩, false)
          else if res.2 ∧ (getL s2 li).refs = 0 then (⟨cleanList s2 li, o.tr, false⟩, false)
          else (⟨s2, o.tr, false⟩, false)

/-- `emit(sender, signal, args)`: top-level entry, with an empty trace
accumulator. -/
def emit (env : Env) (fuel : Nat) (s : St) (sd g : Nat) : Out :=
  (exec env fuel (.emitR sd g) s []).1

/-- The trivial environment: every callback just returns. -/
def env0 : Env := fun _ => []

/-- Environment in which callback `doer` connects `cNew` to `(S, G)`
and every other callback just returns. -/
def envConnectDuring (S G cNew doer : Nat) : Env :=
  fun c => if c = doer then [Action.connectA S G cNew TV.undef] else []

/-- Environment in which callback `doer` disconnects `cGone` from
`(S, G)` and every other callback just returns. -/
def envDisconnectDuring (S G cGone doer : Nat) : Env :=
  fun c => if c = doer then [Action.disconnectA S G cGone TV.undef] else []

/-- Environment in which callback `t` throws and every other callback
just returns. -/
def envThrowOn (t : Nat) : Env :=
  fun c => if c = t then [Action.throwA] else []

/-- The ids of the connections reachable from `cur` through the pointer
field `nx`, in order (fuel-bounded walk of a chain). -/
def chainFrom (s : St) (nx : Connection → Option Nat) : Nat → Option Nat → List Nat
  | 0, _ => []
  | _ + 1, none => []
  | fuel + 1, some i => i :: chainFrom s nx fuel (nx (getC s i))

/-- The ids linked into the sender list `li`, in list order. -/
def senderChain (s : St) (li : Nat) : List Nat :=
  chainFrom s (fun c => c.nextReceiver) (s.conns.length + 1) (getL s li).first

/-- The ids linked into the receiver chain of identity `rv`, in chain
order (most recently connected first). -/
def receiverChain (s : St) (rv : Rcv) : List Nat :=
  chainFrom s (fun c => c.nextSender) (s.conns.length + 1) (lookupA s.receiverMap rv)

/-- Re-embed a normalized context as a `thisArg` argument
(`TV.ofOpt o` normalizes back to `o`). -/
def TV.ofOpt : Option Nat → TV
  | none => TV.undef
  | some n => TV.obj n

/-- A connect or disconnect operation on one sender: signal, callback,
normalized context. -/
inductive Op where
  | conn : Nat → Nat → Option Nat → Op
  | disc : Nat → Nat → Option Nat → Op
deriving DecidableEq, Repr

/-- Apply one operation to the heap, with `S` as the sender. -/
def runOp (S : Nat) (s : St) : Op → St
  | .conn g cb ctx => (connect s S g cb (TV.ofOpt ctx)).1
  | .disc g cb ctx => (disconnect s S g cb (TV.ofOpt ctx)).1

/-- Replay a sequence of connect/disconnect operations on sender `S`. -/
def runOps (S : Nat) (s : St) : List Op → St
  | [] => s
  | op :: rest => runOps S (runOp S s op) rest

/-- A subscription triple: (signal, callback, normalized context). -/
abbrev Trip := Nat × Nat × Option Nat

/-- Spec-side abstract model of one sender's subscriptions, written
from the spec's words, for comparison with the embedded code: the
subscriptions form a set of `(signal, callback, context)` triples kept
in connection order; `connect` appends at the tail unless the triple is
already present (duplicates rejected); `disconnect` removes the triple
if present.  A reconnected triple therefore takes a new position at the
tail. -/
def specStep (l : List Trip) : Op → List Trip
  | .conn g cb ctx => if (g, cb, ctx) ∈ l then l else l ++ [(g, cb, ctx)]
  | .disc g cb ctx => if (g, cb, ctx) ∈ l then l.erase (g, cb, ctx) else l

/-- Spec-side model: replay a sequence of operations. -/
def specRun (l : List Trip) : List Op → List Trip
  | [] => l
  | op :: rest => specRun (specStep l op) rest

/-- Spec-side model of the `emit` order: the callbacks subscribed to
signal `g`, with their contexts, in connection order. -/
def specOrder (l : List Trip) (g : Nat) : Trace :=
  (l.filter (fun t => t.1 = g)).map (fun t => (t.2.1, t.2.2))

/-- `chainIs s cur ids`: starting at pointer `cur`, following
`nextReceiver` visits exactly the ids in `ids` and ends at null. -/
def chainIs (s : St) : Option Nat → List Nat → Prop
  | cur, [] => cur = none
  | cur, i :: rest => cur = some i ∧ chainIs s (getC s i).nextReceiver rest

/-- The subscription triple carried by record `i`, or `none` if the
record is dead. -/
def tripOf (s : St) (i : Nat) : Option Trip :=
  match (getC s i).callback with
  | none => none
  | some cb => some ((getC s i).signal, cb, (getC s i).thisArg)

/-- The subscription triples of the live records among `ids`, in
order. -/
def liveTrips (s : St) (ids : List Nat) : List Trip :=
  ids.filterMap (tripOf s)

/-- The predicate `findConnection` tests on each record. -/
def connMatch (s : St) (g cb : Nat) (ctx : Option Nat) (i : Nat) : Bool :=
  decide ((getC s i).signal = g ∧ (getC s i).callback = some cb ∧ (getC s i).thisArg = ctx)

/-- The fields of a connection read by the sender-list machinery
(`chainIs`, `liveTrips`, `findConnection`, `invokeList`): everything
except the receiver-side linkage, which the receiver bookkeeping
mutates freely. -/
def core (c : Connection) : Nat × Option Nat × Option Nat × Option Nat :=
  (c.signal, c.callback, c.thisArg, c.nextReceiver)

/-- The subscription fields alone (signal, callback, context): what
`tripOf` and hence `liveTrips` read. -/
def lkey (c : Connection) : Nat × Option Nat × Option Nat :=
  (c.signal, c.callback, c.thisArg)

/-- The concrete-heap invariant tying sender `S`'s state to the
spec-side list `abs`: the sender map has exactly the entry for `S`
(list id `0`), no emission is in progress, the sender list is a chain
of strictly increasing in-range ids, `last` points at the final chain
record, and the live records carry exactly the triples of `abs`, which
are pairwise distinct. -/
structure SInv (S : Nat) (s : St) (ids : List Nat) (abs : List Trip) : Prop where
  smap : s.senderMap = [(S, 0)]
  llen : 0 < s.lists.length
  refs0 : (getL s 0).refs = 0
  chain : chainIs s (getL s 0).first ids
  lastOk : (getL s 0).last = ids.getLast?
  incr : ids.Pairwise (· < ·)
  bound : ∀ i ∈ ids, i < s.conns.length
  absOk : liveTrips s ids = abs
  absNodup : abs.Nodup

/-- The invariant including the virgin state (no connect yet). -/
def InvE (S : Nat) (s : St) (ids : List Nat) (abs : List Trip) : Prop :=
  (s = st0 ∧ ids = [] ∧ abs = []) ∨ SInv S s ids abs

theorem norm_ofOpt (o : Option Nat) : (TV.ofOpt o).norm = o := by
  cases o <;> rfl

theorem lkey_of_core {c c' : Connection} (h : core c' = core c) : lkey c' = lkey c := by
  have h1 := congrArg (fun t => t.1) h
  have h2 := congrArg (fun t => t.2.1) h
  have h3 := congrArg (fun t => t.2.2.1) h
  simp only [core] at h1 h2 h3
  simp [lkey, h1, h2, h3]

theorem nextRec_of_core {c c' : Connection} (h : core c' = core c) :
    c'.nextReceiver = c.nextReceiver := by
  have h4 := congrArg (fun t => t.2.2.2) h
  simpa [core] using h4

theorem getC_setC_self (s : St) (j : Nat) (c : Connection) (h : j < s.conns.length) :
    getC (setC s j c) j = c := by
  unfold getC setC
  rw [List.get?_eq_getElem?]
  simp only [List.getElem?_set_eq_of_lt c h, Option.getD_some]

theorem getC_setC_ne (s : St) (j : Nat) (c : Connection) (i : Nat) (h : i ≠ j) :
    getC (setC s j c) i = getC s i := by
  unfold getC setC
  by_cases hj : j < s.conns.length
  · rw [List.get?_eq_getElem?, List.get?_eq_getElem?]
    rw [List.getElem?_set_ne (Ne.symm h)]
  · rw [List.set_eq_of_length_le (Nat.le_of_not_lt hj)]

theorem conns_length_setC (s : St) (j : Nat) (c : Connection) :
    (setC s j c).conns.length = s.conns.length := by
  simp [setC]

theorem core_getC_setC (s : St) (j : Nat) (c : Connection)
    (hc : core c = core (getC s j)) (i : Nat) :
    core (getC (setC s j c) i) = core (getC s i) := by
  by_cases hij : i = j
  · subst hij
    by_cases h : i < s.conns.length
    · rw [getC_setC_self s i c h, hc]
    · unfold getC setC
      rw [List.set_eq_of_length_le (Nat.le_of_not_lt h)]
  · rw [getC_setC_ne s j c i hij]

theorem removeFromSendersList_senderMap (s : St) (j : Nat) :
    (removeFromSendersList s j).senderMap = s.senderMap := by
  simp only [removeFromSendersList]
  split
  · rfl
  · split <;> rfl

theorem removeFromSendersList_lists (s : St) (j : Nat) :
    (removeFromSendersList s j).lists = s.lists := by
  simp only [removeFromSendersList]
  split
  · rfl
  · split <;> rfl

theorem removeFromSendersList_conns_length (s : St) (j : Nat) :
    (removeFromSendersList s j).conns.length = s.conns.length := by
  simp only [removeFromSendersList]
  split
  · rfl
  · split <;> simp [setC]

theorem removeFromSendersList_core (s : St) (j : Nat) (i : Nat) :
    core (getC (removeFromSendersList s j) i) = core (getC s i) := by
  simp only [removeFromSendersList]
  split
  · rfl
  · split
    · exact core_getC_setC _ _ _ (by simp [core]) i
    · exact (core_getC_setC _ _ _ (by simp [core]) i).trans
        (core_getC_setC _ _ _ (by simp [core]) i)
    · exact (core_getC_setC _ _ _ (by simp [core]) i).trans
        (core_getC_setC _ _ _ (by simp [core]) i)
    · exact (core_getC_setC _ _ _ (by simp [core]) i).trans
        ((core_getC_setC _ _ _ (by simp [core]) i).trans
          (core_getC_setC _ _ _ (by simp [core]) i))

theorem chainIs_congr_on {s s' : St} :
    ∀ {ids : List Nat} {cur : Option Nat},
      (∀ i ∈ ids, (getC s' i).nextReceiver = (getC s i).nextReceiver) →
      chainIs s cur ids → chainIs s' cur ids := by
  intro ids
  induction ids with
  | nil => intro cur _ hc; exact hc
  | cons i rest ih =>
      intro cur h hc
      refine ⟨hc.1, ?_⟩
      rw [h i (by simp)]
      exact ih (fun k hk => h k (by simp [hk])) hc.2

theorem tripOf_congr {s s' : St} {i : Nat} (h : lkey (getC s' i) = lkey (getC s i)) :
    tripOf s' i = tripOf s i := by
  have h1 : (getC s' i).signal = (getC s i).signal := by
    have := congrArg (fun t => t.1) h
    simpa [lkey] using this
  have h2 : (getC s' i).callback = (getC s i).callback := by
    have := congrArg (fun t => t.2.1) h
    simpa [lkey] using this
  have h3 : (getC s' i).thisArg = (getC s i).thisArg := by
    have := congrArg (fun t => t.2.2) h
    simpa [lkey] using this
  unfold tripOf
  rw [h1, h2, h3]

theorem liveTrips_congr_on {s s' : St} {ids : List Nat}
    (h : ∀ i ∈ ids, lkey (getC s' i) = lkey (getC s i)) :
    liveTrips s' ids = liveTrips s ids := by
  induction ids with
  | nil => rfl
  | cons i rest ih =>
      unfold liveTrips
      rw [List.filterMap_cons, List.filterMap_cons, tripOf_congr (h i (by simp))]
      have hrec := ih (fun k hk => h k (by simp [hk]))
      unfold liveTrips at hrec
      rw [hrec]

theorem tripOf_eq_some {s : St} {i g cb : Nat} {ctx : Option Nat} :
    tripOf s i = some (g, cb, ctx) ↔ connMatch s g cb ctx i = true := by
  unfold tripOf connMatch
  cases h : (getC s i).callback with
  | none => simp [h]
  | some cb' => simp [h]

theorem mem_liveTrips {s : St} {ids : List Nat} {g cb : Nat} {ctx : Option Nat} :
    (g, cb, ctx) ∈ liveTrips s ids ↔ ∃ i ∈ ids, connMatch s g cb ctx i = true := by
  unfold liveTrips
  rw [List.mem_filterMap]
  constructor
  · rintro ⟨i, hi, hsome⟩
    exact ⟨i, hi, tripOf_eq_some.mp hsome⟩
  · rintro ⟨i, hi, hm⟩
    exact ⟨i, hi, tripOf_eq_some.mpr hm⟩

theorem findConnection_eq_find? {s : St} (g cb : Nat) (ctx : Option Nat) :
    ∀ (ids : List Nat) (cur : Option Nat) (fuel : Nat),
      chainIs s cur ids → ids.length ≤ fuel →
      findConnection s g cb ctx fuel cur = ids.find? (connMatch s g cb ctx) := by
  intro ids
  induction ids with
  | nil =>
      intro cur fuel hc _
      have hcur : cur = none := hc
      subst hcur
      cases fuel <;> rfl
  | cons i rest ih =>
      intro cur fuel hc hl
      obtain ⟨hcur, hrest⟩ := hc
      subst hcur
      cases fuel with
      | zero => exact absurd hl (by simp)
      | succ f =>
          rw [List.find?_cons]
          by_cases hp : ((getC s i).signal = g ∧ (getC s i).callback = some cb ∧
              (getC s i).thisArg = ctx)
          · have hm : connMatch s g cb ctx i = true := decide_eq_true hp
            unfold findConnection
            rw [if_pos hp, hm]
          · have hm : connMatch s g cb ctx i = false := by
              unfold connMatch
              exact decide_eq_false hp
            unfold findConnection
            rw [if_neg hp, hm]
            exact ih _ f hrest (by simpa using Nat.le_of_succ_le_succ hl)

theorem mem_of_getLast?_eq {ids : List Nat} {lst : Nat} (h : ids.getLast? = some lst) :
    lst ∈ ids := by
  have hx : lst ∈ ids.getLast? := h
  obtain ⟨hne, heq⟩ := List.mem_getLast?_eq_getLast hx
  rw [heq]
  exact List.getLast_mem hne

theorem chainIs_snoc {s s' : St} {lst n : Nat} :
    ∀ {ids : List Nat} {cur : Option Nat},
      ids.Nodup →
      chainIs s cur ids →
      ids.getLast? = some lst →
      (∀ i ∈ ids, i ≠ lst → (getC s' i).nextReceiver = (getC s i).nextReceiver) →
      (getC s' lst).nextReceiver = some n →
      (getC s' n).nextReceiver = none →
      chainIs s' cur (ids ++ [n]) := by
  intro ids
  induction ids with
  | nil => intro cur _ _ hlast _ _ _; simp at hlast
  | cons i rest ih =>
      intro cur hnd hc hlast hpres hlst hn
      obtain ⟨hcur, hrest⟩ := hc
      subst hcur
      cases rest with
      | nil =>
          have hil : i = lst := by simpa using hlast
          subst hil
          exact ⟨rfl, by rw [hlst]; exact ⟨rfl, hn⟩⟩
      | cons b rest' =>
          have hlast' : (b :: rest').getLast? = some lst := by
            rw [← hlast, List.getLast?_cons_cons]
          have hlm : lst ∈ b :: rest' := mem_of_getLast?_eq hlast'
          have hil : i ≠ lst := by
            intro he
            exact (List.nodup_cons.mp hnd).1 (he ▸ hlm)
          refine ⟨rfl, ?_⟩
          rw [hpres i (by simp) hil]
          exact ih (List.nodup_cons.mp hnd).2 hrest hlast'
            (fun k hk hkl => hpres k (by simp [hk]) hkl) hlst hn

theorem liveTrips_kill {s s' : St} {g cb : Nat} {ctx : Option Nat} {j : Nat} :
    ∀ {ids : List Nat},
      ids.Nodup →
      ids.find? (connMatch s g cb ctx) = some j →
      (∀ i, i ≠ j → lkey (getC s' i) = lkey (getC s i)) →
      (getC s' j).callback = none →
      liveTrips s' ids = (liveTrips s ids).erase (g, cb, ctx) := by
  intro ids
  induction ids with
  | nil => intro _ hfind _ _; simp at hfind
  | cons i rest ih =>
      intro hnd hfind hne hdead
      rw [List.find?_cons] at hfind
      by_cases hp : connMatch s g cb ctx i = true
      · rw [hp] at hfind
        have hij : i = j := by
          simpa using hfind
        subst hij
        have htrip : tripOf s i = some (g, cb, ctx) := tripOf_eq_some.mpr hp
        have htrip' : tripOf s' i = none := by
          unfold tripOf
          rw [hdead]
        unfold liveTrips
        rw [List.filterMap_cons, List.filterMap_cons, htrip, htrip', List.erase_cons_head]
        exact liveTrips_congr_on
          (fun k hk => hne k (fun hkj => (List.nodup_cons.mp hnd).1 (hkj ▸ hk)))
      · have hpf : connMatch s g cb ctx i = false := Bool.eq_false_iff.mpr hp
        rw [hpf] at hfind
        have hij : i ≠ j := by
          intro he
          exact (List.nodup_cons.mp hnd).1 (he ▸ List.mem_of_find?_eq_some hfind)
        unfold liveTrips
        rw [List.filterMap_cons, List.filterMap_cons, tripOf_congr (hne i hij)]
        have hrec := ih (List.nodup_cons.mp hnd).2 hfind hne hdead
        unfold liveTrips at hrec
        cases ht : tripOf s i with
        | none => simpa [ht] using hrec
        | some t' =>
            have htne : t' ≠ (g, cb, ctx) := by
              intro he
              subst he
              exact hp (tripOf_eq_some.mp ht)
            rw [hrec, List.erase_cons_tail]
            simpa using htne

theorem getL_setL_self (s : St) (li : Nat) (l : ConnectionList) (h : li < s.lists.length) :
    getL (setL s li l) li = l := by
  unfold getL setL
  rw [List.get?_eq_getElem?]
  simp only [List.getElem?_set_eq_of_lt l h, Option.getD_some]
theorem SInv.nodup {S : Nat} {s : St} {ids : List Nat} {abs : List Trip}
    (h : SInv S s ids abs) : ids.Nodup :=
  h.incr.imp (fun hlt => Nat.ne_of_lt hlt)

theorem SInv.idsLen {S : Nat} {s : St} {ids : List Nat} {abs : List Trip}
    (h : SInv S s ids abs) : ids.length ≤ s.conns.length := by
  have hnd : ids.Nodup := h.nodup
  have hsub : ids.toFinset ⊆ Finset.range s.conns.length := by
    intro i hi
    rw [List.mem_toFinset] at hi
    exact Finset.mem_range.mpr (h.bound i hi)
  have := Finset.card_le_card hsub
  rwa [Finset.card_range, List.toFinset_card_of_nodup hnd] at this

theorem SInv.lookup0 {S : Nat} {s : St} {ids : List Nat} {abs : List Trip}
    (h : SInv S s ids abs) : lookupA s.senderMap S = some 0 := by
  rw [h.smap]
  simp [lookupA]

theorem SInv.findEq {S : Nat} {s : St} {ids : List Nat} {abs : List Trip}
    (h : SInv S s ids abs) (g cb : Nat) (ctx : Option Nat) :
    findConnection s g cb ctx (s.conns.length + 1) (getL s 0).first
      = ids.find? (connMatch s g cb ctx) :=
  findConnection_eq_find? g cb ctx ids _ _ h.chain (by have := h.idsLen; omega)

theorem connect_of_mem {S g cb : Nat} {s : St} {ids : List Nat} {abs : List Trip}
    {ctx : Option Nat} (h : SInv S s ids abs) (hmem : (g, cb, ctx) ∈ abs) :
    connect s S g cb (TV.ofOpt ctx) = (s, false) := by
  have hsome : (ids.find? (connMatch s g cb ctx)).isSome = true := by
    rw [List.find?_isSome]
    exact mem_liveTrips.mp (h.absOk ▸ hmem)
  unfold connect
  rw [norm_ofOpt, h.lookup0]
  dsimp only
  rw [h.findEq g cb ctx, hsome]
  simp
theorem addToSendersList_senderMap (s : St) (rv : Rcv) (i : Nat) :
    (addToSendersList s rv i).senderMap = s.senderMap := by
  simp only [addToSendersList]
  split <;> rfl

theorem addToSendersList_lists (s : St) (rv : Rcv) (i : Nat) :
    (addToSendersList s rv i).lists = s.lists := by
  simp only [addToSendersList]
  split <;> rfl

theorem addToSendersList_conns_length (s : St) (rv : Rcv) (i : Nat) :
    (addToSendersList s rv i).conns.length = s.conns.length := by
  simp only [addToSendersList]
  split <;> simp [setC]

theorem addToSendersList_core (s : St) (rv : Rcv) (i k : Nat) :
    core (getC (addToSendersList s rv i) k) = core (getC s k) := by
  simp only [addToSendersList]
  split
  · exact (core_getC_setC _ _ _ (by simp [core]) k).trans
      (core_getC_setC _ _ _ (by simp [core]) k)
  · rfl

theorem addToSendersList_getL (s : St) (rv : Rcv) (i li : Nat) :
    getL (addToSendersList s rv i) li = getL s li := by
  unfold getL
  rw [addToSendersList_lists]

theorem getC_append_old (s : St) (nc : Connection) (k : Nat) (hk : k < s.conns.length) :
    getC { s with conns := s.conns ++ [nc] } k = getC s k := by
  unfold getC
  simp only
  rw [List.get?_eq_getElem?, List.get?_eq_getElem?, List.getElem?_append_left hk]

theorem getC_append_new (s : St) (nc : Connection) :
    getC { s with conns := s.conns ++ [nc] } s.conns.length = nc := by
  unfold getC
  simp only
  rw [List.get?_eq_getElem?, List.getElem?_concat_length]
  rfl

theorem tripOf_eq_of_core {s' : St} {n g cb : Nat} {ctx : Option Nat}
    (h : core (getC s' n) = core (⟨g, some cb, ctx, none, none, none⟩ : Connection)) :
    tripOf s' n = some (g, cb, ctx) := by
  have h1 : (getC s' n).signal = g := by
    have := congrArg (fun t => t.1) h
    simpa [core] using this
  have h2 : (getC s' n).callback = some cb := by
    have := congrArg (fun t => t.2.1) h
    simpa [core] using this
  have h3 : (getC s' n).thisArg = ctx := by
    have := congrArg (fun t => t.2.2.1) h
    simpa [core] using this
  unfold tripOf
  rw [h1, h2, h3]
theorem connect_of_not_mem {S g cb : Nat} {s : St} {ids : List Nat} {abs : List Trip}
    {ctx : Option Nat} (h : SInv S s ids abs) (hmem : (g, cb, ctx) ∉ abs) :
    (connect s S g cb (TV.ofOpt ctx)).2 = true ∧
    SInv S (connect s S g cb (TV.ofOpt ctx)).1 (ids ++ [s.conns.length])
      (abs ++ [(g, cb, ctx)]) := by
  have hnone : ids.find? (connMatch s g cb ctx) = none := by
    rw [List.find?_eq_none]
    intro i hi hp
    exact hmem (h.absOk ▸ mem_liveTrips.mpr ⟨i, hi, hp⟩)
  unfold connect
  rw [norm_ofOpt, h.lookup0]
  dsimp only
  rw [h.findEq g cb ctx, hnone]
  simp only [Option.isSome_none, Bool.false_eq_true, if_false]
  refine ⟨trivial, ?_⟩
  set nc : Connection := ⟨g, some cb, ctx, none, none, none⟩ with hnc
  set s1 : St := { s with conns := s.conns ++ [nc] } with hs1
  split
  next heq =>
    -- the sender list was empty: ids = []
    have hids : ids = [] := by
      rw [← List.getLast?_eq_none_iff, ← h.lastOk]
      exact heq
    subst hids
    have habs : abs = [] := by rw [← h.absOk]; rfl
    subst habs
    have hl1 : (0 : Nat) < s1.lists.length := h.llen
    have hcoreN :
        core (getC (addToSendersList
          (setL s1 0 ⟨(getL s1 0).refs, some s.conns.length, some s.conns.length⟩)
          (receiverOf ctx cb) s.conns.length) s.conns.length) = core nc := by
      refine (addToSendersList_core _ _ _ _).trans ?_
      show core (getC s1 s.conns.length) = core nc
      rw [hs1, getC_append_new]
    refine ⟨?_, ?_, ?_, ?_, ?_, ?_, ?_, ?_, ?_⟩
    · rw [addToSendersList_senderMap]
      exact h.smap
    · rw [addToSendersList_lists]
      simpa [setL] using h.llen
    · rw [addToSendersList_getL, getL_setL_self _ _ _ hl1]
      exact h.refs0
    · refine ⟨?_, ?_⟩
      · rw [addToSendersList_getL, getL_setL_self _ _ _ hl1]
      · rw [nextRec_of_core hcoreN]
        rfl
    · rw [addToSendersList_getL, getL_setL_self _ _ _ hl1]
      rfl
    · simp
    · intro i hi
      simp only [List.nil_append, List.mem_singleton] at hi
      subst hi
      rw [addToSendersList_conns_length]
      simp [setL, hs1]
    · show liveTrips _ ([] ++ [s.conns.length]) = [] ++ [(g, cb, ctx)]
      simp only [List.nil_append]
      unfold liveTrips
      rw [List.filterMap_cons, tripOf_eq_of_core hcoreN]
      rfl
    · simp
  next lst heq =>
    -- the sender list was nonempty: append after its last record
    have hlast : ids.getLast? = some lst := by
      rw [← h.lastOk]
      exact heq
    have hlstMem : lst ∈ ids := mem_of_getLast?_eq hlast
    have hlstLt : lst < s.conns.length := h.bound lst hlstMem
    have hlstNe : lst ≠ s.conns.length := Nat.ne_of_lt hlstLt
    set s1a : St := setC s1 lst { getC s1 lst with nextReceiver := some s.conns.length }
      with hs1a
    set s2 : St := setL s1a 0 { getL s1a 0 with last := some s.conns.length } with hs2
    have hl1 : (0 : Nat) < s1a.lists.length := h.llen
    have hlenS1 : lst < s1.conns.length := by
      rw [hs1]
      simp
      omega
    have hgetS1a_lst :
        getC s1a lst = { getC s1 lst with nextReceiver := some s.conns.length } :=
      getC_setC_self _ _ _ hlenS1
    have hgetS1a_ne : ∀ k, k ≠ lst → getC s1a k = getC s1 k := fun k hk =>
      getC_setC_ne _ _ _ _ hk
    have hcoreF : ∀ k,
        core (getC (addToSendersList s2 (receiverOf ctx cb) s.conns.length) k)
          = core (getC s1a k) :=
      fun k => addToSendersList_core _ _ _ k
    have hcoreN :
        core (getC (addToSendersList s2 (receiverOf ctx cb) s.conns.length) s.conns.length)
          = core nc := by
      rw [hcoreF s.conns.length, hgetS1a_ne s.conns.length (Ne.symm hlstNe), hs1,
        getC_append_new]
    refine ⟨?_, ?_, ?_, ?_, ?_, ?_, ?_, ?_, ?_⟩
    · rw [addToSendersList_senderMap]
      exact h.smap
    · rw [addToSendersList_lists, hs2, hs1a, hs1]
      simpa [setL, setC] using h.llen
    · rw [addToSendersList_getL, getL_setL_self _ _ _ hl1]
      show (getL s1a 0).refs = 0
      exact h.refs0
    · have hfirst :
          (getL (addToSendersList s2 (receiverOf ctx cb) s.conns.length) 0).first
            = (getL s 0).first := by
        rw [addToSendersList_getL, getL_setL_self _ _ _ hl1]
        rfl
      rw [hfirst]
      refine chainIs_snoc h.nodup h.chain hlast ?_ ?_ ?_
      · intro i hi hil
        have hco := hcoreF i
        rw [hgetS1a_ne i hil, hs1, getC_append_old s nc i (h.bound i hi)] at hco
        exact nextRec_of_core hco
      · have hco := hcoreF lst
        rw [hgetS1a_lst] at hco
        rw [nextRec_of_core hco]
      · rw [nextRec_of_core hcoreN]
    · rw [addToSendersList_getL, getL_setL_self _ _ _ hl1]
      rw [List.getLast?_concat]
    · rw [List.pairwise_append]
      refine ⟨h.incr, by simp, fun a ha b hb => ?_⟩
      simp only [List.mem_singleton] at hb
      subst hb
      exact h.bound a ha
    · intro i hi
      rw [addToSendersList_conns_length]
      have hlen2 : s2.conns.length = s.conns.length + 1 := by
        rw [hs2, hs1a, hs1]
        simp [setL, setC]
      rw [hlen2]
      rcases List.mem_append.mp hi with hi2 | hi2
      · exact Nat.lt_succ_of_lt (h.bound i hi2)
      · simp only [List.mem_singleton] at hi2
        subst hi2
        exact Nat.lt_succ_self _
    · have hsame : liveTrips (addToSendersList s2 (receiverOf ctx cb) s.conns.length) ids
          = liveTrips s ids := by
        refine liveTrips_congr_on (fun i hi => ?_)
        by_cases hil : i = lst
        · subst hil
          have hco := hcoreF i
          rw [hgetS1a_lst] at hco
          have hlk := lkey_of_core hco
          rw [show lkey { getC s1 i with nextReceiver := some s.conns.length }
              = lkey (getC s1 i) from by simp [lkey]] at hlk
          rw [hs1, getC_append_old s nc i hlstLt] at hlk
          exact hlk
        · have hco := hcoreF i
          rw [hgetS1a_ne i hil, hs1, getC_append_old s nc i (h.bound i hi)] at hco
          exact lkey_of_core hco
      have hsame2 :
          List.filterMap (tripOf (addToSendersList s2 (receiverOf ctx cb) s.conns.length)) ids
            = abs :=
        hsame.trans h.absOk
      show liveTrips _ (ids ++ [s.conns.length]) = abs ++ [(g, cb, ctx)]
      unfold liveTrips
      rw [List.filterMap_append, hsame2]
      simp [List.filterMap_cons, tripOf_eq_of_core hcoreN]
    · rw [List.nodup_append]
      refine ⟨h.absNodup, by simp, fun a ha hb => ?_⟩
      simp only [List.mem_singleton] at hb
      subst hb
      exact hmem ha
theorem disconnect_of_not_mem {S g cb : Nat} {s : St} {ids : List Nat} {abs : List Trip}
    {ctx : Option Nat} (h : SInv S s ids abs) (hmem : (g, cb, ctx) ∉ abs) :
    disconnect s S g cb (TV.ofOpt ctx) = (s, false) := by
  have hnone : ids.find? (connMatch s g cb ctx) = none := by
    rw [List.find?_eq_none]
    intro i hi hp
    exact hmem (h.absOk ▸ mem_liveTrips.mpr ⟨i, hi, hp⟩)
  unfold disconnect
  rw [norm_ofOpt, h.lookup0]
  dsimp only
  rw [h.findEq g cb ctx, hnone]

theorem disconnect_of_mem {S g cb : Nat} {s : St} {ids : List Nat} {abs : List Trip}
    {ctx : Option Nat} (h : SInv S s ids abs) (hmem : (g, cb, ctx) ∈ abs) :
    (disconnect s S g cb (TV.ofOpt ctx)).2 = true ∧
    SInv S (disconnect s S g cb (TV.ofOpt ctx)).1 ids (abs.erase (g, cb, ctx)) := by
  have hsome : (ids.find? (connMatch s g cb ctx)).isSome = true := by
    rw [List.find?_isSome]
    exact mem_liveTrips.mp (h.absOk ▸ hmem)
  obtain ⟨j, hfind⟩ := Option.isSome_iff_exists.mp hsome
  have hjmem : j ∈ ids := List.mem_of_find?_eq_some hfind
  have hjlt : j < s.conns.length := h.bound j hjmem
  unfold disconnect
  rw [norm_ofOpt, h.lookup0]
  dsimp only
  rw [h.findEq g cb ctx, hfind]
  dsimp only
  refine ⟨rfl, ?_⟩
  set r : St := removeFromSendersList s j with hr
  have hjltr : j < r.conns.length := by
    rw [hr, removeFromSendersList_conns_length]
    exact hjlt
  set s2 : St := setC r j { getC r j with callback := none, thisArg := none } with hs2v
  have hget2j : getC s2 j = { getC r j with callback := none, thisArg := none } :=
    getC_setC_self _ _ _ hjltr
  have hget2ne : ∀ k, k ≠ j → getC s2 k = getC r k := fun k hk => getC_setC_ne _ _ _ _ hk
  have hlists2 : s2.lists = s.lists := by
    rw [hs2v]
    show r.lists = s.lists
    rw [hr, removeFromSendersList_lists]
  have hgetL2 : ∀ li, getL s2 li = getL s li := by
    intro li
    unfold getL
    rw [hlists2]
  refine ⟨?_, ?_, ?_, ?_, ?_, ?_, ?_, ?_, ?_⟩
  · show r.senderMap = [(S, 0)]
    rw [hr, removeFromSendersList_senderMap]
    exact h.smap
  · rw [show s2.lists.length = s.lists.length from by rw [hlists2]]
    exact h.llen
  · rw [hgetL2 0]
    exact h.refs0
  · rw [hgetL2 0]
    refine chainIs_congr_on (fun i hi => ?_) h.chain
    by_cases hij : i = j
    · subst hij
      rw [hget2j]
      show (getC r i).nextReceiver = (getC s i).nextReceiver
      exact nextRec_of_core (removeFromSendersList_core s i i)
    · rw [hget2ne i hij]
      exact nextRec_of_core (removeFromSendersList_core s j i)
  · rw [hgetL2 0]
    exact h.lastOk
  · exact h.incr
  · intro i hi
    rw [show s2.conns.length = s.conns.length from by
      rw [hs2v, conns_length_setC, hr, removeFromSendersList_conns_length]]
    exact h.bound i hi
  · have hkill : liveTrips s2 ids = (liveTrips s ids).erase (g, cb, ctx) := by
      refine liveTrips_kill h.nodup hfind (fun i hij => ?_) ?_
      · rw [hget2ne i hij]
        exact lkey_of_core (removeFromSendersList_core s j i)
      · rw [hget2j]
    rw [hkill, h.absOk]
  · exact h.absNodup.erase _
theorem exec_acts_nil (f : Nat) (s : St) (tr : Trace) :
    exec env0 (f + 1) (.acts (env0 0)) s tr = (⟨s, tr, false⟩, false) := rfl

theorem invoke_chain {s : St} {S g : Nat} :
    ∀ (ids : List Nat) (cur : Option Nat) (tr : Trace) (fuel : Nat) (dirty : Bool),
      ids.Nodup →
      chainIs s cur ids →
      ids.length + 1 ≤ fuel →
      exec env0 fuel (.invokeR S g cur ids.getLast? dirty) s tr
        = (⟨s, tr ++ specOrder (liveTrips s ids) g, false⟩,
           dirty || ids.any (fun i => (getC s i).callback.isNone)) := by
  intro ids
  induction ids with
  | nil =>
      intro cur tr fuel dirty _ hc hf
      have hcur : cur = none := hc
      subst hcur
      cases fuel with
      | zero => exact absurd hf (by simp)
      | succ f =>
          show ((⟨s, tr, false⟩ : Out), dirty) =
            ((⟨s, tr ++ specOrder (liveTrips s []) g, false⟩ : Out), dirty || false)
          simp [specOrder, liveTrips]
  | cons i rest ih =>
      intro cur tr fuel dirty hnd hc hf
      obtain ⟨hcur, hrest⟩ := hc
      subst hcur
      cases fuel with
      | zero => simp at hf
      | succ f =>
          have hfr : rest.length + 1 ≤ f := by
            simp at hf
            omega
          simp only [exec]
          cases hcb : (getC s i).callback with
          | none =>
              dsimp only
              cases rest with
              | nil =>
                  have hlast : (([i] : List Nat)).getLast? = some i := rfl
                  rw [hlast]
                  rw [if_pos rfl]
                  show ((⟨s, tr, false⟩ : Out), true) =
                    ((⟨s, tr ++ specOrder (liveTrips s [i]) g, false⟩ : Out), _)
                  simp [specOrder, liveTrips, tripOf, hcb]
              | cons b rest' =>
                  have hlast : ((i :: b :: rest').getLast? ) = (b :: rest').getLast? :=
                    List.getLast?_cons_cons ..
                  have hlstmem : ∀ x, (b :: rest').getLast? = some x → x ∈ b :: rest' :=
                    fun x hx => mem_of_getLast?_eq hx
                  have hne : ¬(some i = (i :: b :: rest').getLast?) := by
                    rw [hlast]
                    cases hx : (b :: rest').getLast? with
                    | none => simp
                    | some x =>
                        have hxm := hlstmem x hx
                        intro hcontra
                        have : i = x := by simpa using hcontra
                        subst this
                        exact (List.nodup_cons.mp hnd).1 hxm
                  rw [if_neg hne]
                  rw [hlast]
                  have := ih (getC s i).nextReceiver tr f true
                    (List.nodup_cons.mp hnd).2 hrest hfr
                  rw [this]
                  show ((⟨s, tr ++ specOrder (liveTrips s (b :: rest')) g, false⟩ : Out), _) =
                    ((⟨s, tr ++ specOrder (liveTrips s (i :: b :: rest')) g, false⟩ : Out), _)
                  simp [specOrder, liveTrips, tripOf, hcb]
          | some cb =>
              dsimp only
              by_cases hsig : (getC s i).signal = g
              · rw [if_pos hsig]
                cases f with
                | zero => exact absurd hfr (by simp)
                | succ f' =>
                    rw [show exec env0 (f' + 1) (.acts (env0 cb))
                        s (tr ++ [(cb, (getC s i).thisArg)])
                        = (⟨s, tr ++ [(cb, (getC s i).thisArg)], false⟩, false) from rfl]
                    cases rest with
                    | nil =>
                        rw [show (([i] : List Nat)).getLast? = some i from rfl]
                        rw [if_neg (by simp), if_pos rfl]
                        show ((⟨s, tr ++ [(cb, (getC s i).thisArg)], false⟩ : Out), dirty) =
                          ((⟨s, tr ++ specOrder (liveTrips s [i]) g, false⟩ : Out), _)
                        simp [specOrder, liveTrips, tripOf, hcb, hsig]
                    | cons b rest' =>
                        have hlast : ((i :: b :: rest').getLast?) = (b :: rest').getLast? :=
                          List.getLast?_cons_cons ..
                        have hne : ¬(some i = (i :: b :: rest').getLast?) := by
                          rw [hlast]
                          cases hx : (b :: rest').getLast? with
                          | none => simp
                          | some x =>
                              intro hcontra
                              have : i = x := by simpa using hcontra
                              subst this
                              exact (List.nodup_cons.mp hnd).1 (mem_of_getLast?_eq hx)
                        rw [if_neg (by simp), if_neg hne]
                        have := ih (getC s i).nextReceiver (tr ++ [(cb, (getC s i).thisArg)])
                          (f' + 1) dirty (List.nodup_cons.mp hnd).2 hrest hfr
                        rw [hlast]
                        rw [this]
                        show ((⟨s, (tr ++ [(cb, (getC s i).thisArg)])
                              ++ specOrder (liveTrips s (b :: rest')) g, false⟩ : Out), _) =
                          ((⟨s, tr ++ specOrder (liveTrips s (i :: b :: rest')) g, false⟩ : Out), _)
                        simp [specOrder, liveTrips, tripOf, hcb, hsig]
              · rw [if_neg hsig]
                cases rest with
                | nil =>
                    rw [show (([i] : List Nat)).getLast? = some i from rfl]
                    rw [if_pos rfl]
                    show ((⟨s, tr, false⟩ : Out), dirty) =
                      ((⟨s, tr ++ specOrder (liveTrips s [i]) g, false⟩ : Out), _)
                    simp [specOrder, liveTrips, tripOf, hcb, hsig]
                | cons b rest' =>
                    have hlast : ((i :: b :: rest').getLast?) = (b :: rest').getLast? :=
                      List.getLast?_cons_cons ..
                    have hne : ¬(some i = (i :: b :: rest').getLast?) := by
                      rw [hlast]
                      cases hx : (b :: rest').getLast? with
                      | none => simp
                      | some x =>
                          intro hcontra
                          have : i = x := by simpa using hcontra
                          subst this
                          exact (List.nodup_cons.mp hnd).1 (mem_of_getLast?_eq hx)
                    rw [if_neg hne]
                    have := ih (getC s i).nextReceiver tr f dirty
                      (List.nodup_cons.mp hnd).2 hrest hfr
                    rw [hlast]
                    rw [this]
                    show ((⟨s, tr ++ specOrder (liveTrips s (b :: rest')) g, false⟩ : Out), _) =
                      ((⟨s, tr ++ specOrder (liveTrips s (i :: b :: rest')) g, false⟩ : Out), _)
                    simp [specOrder, liveTrips, tripOf, hcb, hsig]
theorem tr_of_ite (c : Prop) [Decidable c] (t1 t2 : St) (t : Trace) (b1 b2 : Bool) :
    ((if c then ((⟨t1, t, false⟩ : Out), b1) else ((⟨t2, t, false⟩ : Out), b2)).1).tr = t := by
  by_cases hc : c <;> simp [hc]

theorem emit_trace {S g : Nat} {s : St} {ids : List Nat} {abs : List Trip} {fuel : Nat}
    (h : SInv S s ids abs) (hf : ids.length + 2 ≤ fuel) :
    (emit env0 fuel s S g).tr = specOrder abs g := by
  cases fuel with
  | zero => exact absurd hf (by simp)
  | succ f =>
      unfold emit
      simp only [exec]
      rw [h.lookup0]
      dsimp only
      set sp : St := setL s 0 { getL s 0 with refs := (getL s 0).refs + 1 } with hsp
      have hgc : ∀ i, getC sp i = getC s i := fun i => rfl
      have hgl : getL sp 0 = { getL s 0 with refs := (getL s 0).refs + 1 } :=
        getL_setL_self _ _ _ h.llen
      rw [hgl]
      have hchain : chainIs sp (getL s 0).first ids := chainIs_congr_on (fun i _ => congrArg Connection.nextReceiver (hgc i)) h.chain
      have hlast2 :
          ({ getL s 0 with refs := (getL s 0).refs + 1 } : ConnectionList).last
            = ids.getLast? := h.lastOk
      have hfirst2 :
          ({ getL s 0 with refs := (getL s 0).refs + 1 } : ConnectionList).first
            = (getL s 0).first := rfl
      rw [hlast2, hfirst2]
      have hinv : exec env0 f (.invokeR S g (getL s 0).first ids.getLast? false) sp []
          = ((⟨sp, [] ++ specOrder (liveTrips sp ids) g, false⟩ : Out),
             false || ids.any (fun i => (getC sp i).callback.isNone)) :=
        invoke_chain ids (getL s 0).first [] f false h.nodup hchain (by simp at hf; omega)
      rw [hinv]
      dsimp only
      have habs1 : liveTrips sp ids = abs := (liveTrips_congr_on (fun i _ => congrArg lkey (hgc i))).trans h.absOk
      rw [if_neg (show ¬(false = true) from by simp)]
      rw [tr_of_ite]
      rw [habs1, List.nil_append]
theorem disconnect_st0 (S g cb : Nat) (tv : TV) : disconnect st0 S g cb tv = (st0, false) := rfl

theorem emit_st0 (S g fuel : Nat) : (emit env0 fuel st0 S g).tr = [] := by
  cases fuel <;> rfl

theorem connect_st0 (S g cb : Nat) (ctx : Option Nat) :
    connect st0 S g cb (TV.ofOpt ctx)
      = (⟨[⟨g, some cb, ctx, none, none, none⟩], [⟨0, some 0, some 0⟩], [(S, 0)],
          [(receiverOf ctx cb, 0)]⟩, true) := by
  unfold connect addToSendersList
  rw [norm_ofOpt]
  rfl

theorem connect_st0_inv (S g cb : Nat) (ctx : Option Nat) :
    SInv S (connect st0 S g cb (TV.ofOpt ctx)).1 [0] [(g, cb, ctx)] := by
  rw [connect_st0]
  refine ⟨rfl, by simp, rfl, ⟨rfl, rfl⟩, rfl, by simp, ?_, rfl, by simp⟩
  intro i hi
  simp only [List.mem_singleton] at hi
  subst hi
  simp [getC]

theorem count_specOrder (g cb : Nat) (ctx : Option Nat) :
    ∀ (abs : List Trip),
      (specOrder abs g).count (cb, ctx) = abs.count (g, cb, ctx) := by
  intro abs
  induction abs with
  | nil => rfl
  | cons t rest ih =>
      obtain ⟨g1, c1, x1⟩ := t
      unfold specOrder at ih ⊢
      rw [List.filter_cons]
      by_cases hg : g1 = g
      · subst hg
        rw [if_pos (by simp), List.map_cons, List.count_cons, List.count_cons, ih]
        congr 1
        by_cases he : c1 = cb ∧ x1 = ctx
        · rw [if_pos (by simp [he.1, he.2]), if_pos (by simp [he.1, he.2])]
        · rw [if_neg (by simp only [beq_iff_eq, Prod.mk.injEq]; tauto),
            if_neg (by simp only [beq_iff_eq, Prod.mk.injEq]; tauto)]
      · rw [if_neg (by simpa using hg), List.count_cons, ih,
          if_neg (by simp only [beq_iff_eq, Prod.mk.injEq]; tauto)]
        simp

theorem runOps_invE {S : Nat} :
    ∀ (ops : List Op) {s : St} {ids : List Nat} {abs : List Trip},
      InvE S s ids abs →
      ∃ ids', InvE S (runOps S s ops) ids' (specRun abs ops) ∧
        ids'.length ≤ ids.length + ops.length := by
  intro ops
  induction ops with
  | nil =>
      intro s ids abs h
      exact ⟨ids, h, by simp⟩
  | cons op rest ih =>
      intro s ids abs h
      have hstep : ∃ ids1, InvE S (runOp S s op) ids1 (specStep abs op) ∧
          ids1.length ≤ ids.length + 1 := by
        rcases h with ⟨hs, hids, habs⟩ | hInv
        · subst hs
          subst hids
          subst habs
          cases op with
          | conn g cb ctx =>
              refine ⟨[0], Or.inr ?_, by simp⟩
              have hspec : specStep [] (Op.conn g cb ctx) = [(g, cb, ctx)] := by
                simp [specStep]
              rw [hspec]
              exact connect_st0_inv S g cb ctx
          | disc g cb ctx =>
              refine ⟨[], Or.inl ⟨?_, rfl, ?_⟩, by simp⟩
              · show (disconnect st0 S g cb (TV.ofOpt ctx)).1 = st0
                rw [disconnect_st0]
              · simp [specStep]
        · cases op with
          | conn g cb ctx =>
              by_cases hm : (g, cb, ctx) ∈ abs
              · refine ⟨ids, ?_, by omega⟩
                have hres := connect_of_mem hInv hm
                have hspec : specStep abs (Op.conn g cb ctx) = abs := by
                  simp [specStep, hm]
                show InvE S (connect s S g cb (TV.ofOpt ctx)).1 ids (specStep abs (Op.conn g cb ctx))
                rw [hres, hspec]
                exact Or.inr hInv
              · have hres := connect_of_not_mem hInv hm
                refine ⟨ids ++ [s.conns.length], ?_, by simp⟩
                have hspec : specStep abs (Op.conn g cb ctx) = abs ++ [(g, cb, ctx)] := by
                  simp [specStep, hm]
                show InvE S (connect s S g cb (TV.ofOpt ctx)).1 (ids ++ [s.conns.length])
                  (specStep abs (Op.conn g cb ctx))
                rw [hspec]
                exact Or.inr hres.2
          | disc g cb ctx =>
              by_cases hm : (g, cb, ctx) ∈ abs
              · have hres := disconnect_of_mem hInv hm
                refine ⟨ids, ?_, by omega⟩
                have hspec : specStep abs (Op.disc g cb ctx) = abs.erase (g, cb, ctx) := by
                  simp [specStep, hm]
                show InvE S (disconnect s S g cb (TV.ofOpt ctx)).1 ids (specStep abs (Op.disc g cb ctx))
                rw [hspec]
                exact Or.inr hres.2
              · have hres := disconnect_of_not_mem hInv hm
                refine ⟨ids, ?_, by omega⟩
                have hspec : specStep abs (Op.disc g cb ctx) = abs := by
                  simp [specStep, hm]
                show InvE S (disconnect s S g cb (TV.ofOpt ctx)).1 ids (specStep abs (Op.disc g cb ctx))
                rw [hres, hspec]
                exact Or.inr hInv
      obtain ⟨ids1, h1, hlen1⟩ := hstep
      obtain ⟨ids', h', hlen'⟩ := ih h1
      refine ⟨ids', h', ?_⟩
      simp only [List.length_cons]
      omega
theorem count_one_of_nodup {α : Type} [BEq α] [LawfulBEq α] {l : List α} {a : α}
    (nd : l.Nodup) (h : a ∈ l) : l.count a = 1 := by
  induction l with
  | nil => simp at h
  | cons b rest ih =>
      rw [List.count_cons]
      rcases List.mem_cons.mp h with hab | harest
      · subst hab
        have hnb : a ∉ rest := (List.nodup_cons.mp nd).1
        rw [List.count_eq_zero.mpr hnb]
        simp
      · have hne : b ≠ a := by
          intro he
          exact (List.nodup_cons.mp nd).1 (he ▸ harest)
        rw [ih (List.nodup_cons.mp nd).2 harest]
        simp [hne]

/-- C4: order preservation.  For any interleaving `ops` of connects,
disconnects and reconnects on sender `S` (starting from the empty
heap), the trace of a subsequent `emit` of signal `g` equals the
spec-side connection order `specRun`/`specOrder`: callbacks are invoked
in the order they were connected, with a disconnected triple removed
and a reconnected triple taking a new position at the tail. -/
theorem emit_order_preservation (S g : Nat) (ops : List Op) :
    (emit env0 (ops.length + 2) (runOps S st0 ops) S g).tr
      = specOrder (specRun [] ops) g := by
  obtain ⟨ids', hinv, hlen⟩ := runOps_invE ops (Or.inl ⟨rfl, rfl, rfl⟩)
  simp only [List.length_nil, Nat.zero_add] at hlen
  rcases hinv with ⟨hs, hids, habs⟩ | hInv
  · rw [hs, emit_st0, habs]
    rfl
  · exact emit_trace hInv (by omega)

/-- C5: uniqueness.  In any state reached by a sequence of operations
on sender `S` in which a live connection for the quadruple
`(S, g, cb, ctx)` exists, a second `connect` with identical arguments
returns `false`, leaves the heap unchanged (no second record), and the
next `emit` of `g` invokes `(cb, ctx)` exactly once. -/
theorem connect_uniqueness (S g cb : Nat) (ctx : Option Nat) (ops : List Op)
    (hmem : (g, cb, ctx) ∈ specRun [] ops) :
    (connect (runOps S st0 ops) S g cb (TV.ofOpt ctx)).2 = false ∧
    (connect (runOps S st0 ops) S g cb (TV.ofOpt ctx)).1 = runOps S st0 ops ∧
    ((emit env0 (ops.length + 2)
        (connect (runOps S st0 ops) S g cb (TV.ofOpt ctx)).1 S g).tr).count (cb, ctx)
      = 1 := by
  obtain ⟨ids', hinv, hlen⟩ := runOps_invE ops (Or.inl ⟨rfl, rfl, rfl⟩)
  simp only [List.length_nil, Nat.zero_add] at hlen
  rcases hinv with ⟨hs, hids, habs⟩ | hInv
  · rw [habs] at hmem
    simp at hmem
  · have hres := connect_of_mem hInv hmem
    refine ⟨by rw [hres], by rw [hres], ?_⟩
    rw [hres]
    rw [show ((runOps S st0 ops, false).1) = runOps S st0 ops from rfl]
    rw [emit_trace hInv (by omega), count_specOrder]
    exact count_one_of_nodup hInv.absNodup hmem

/-- Closed instance of `connect_uniqueness`: one connect, then a
duplicate connect, then an emit. -/
theorem connect_uniqueness_witness :
    ((0 : Nat), (0 : Nat), (none : Option Nat)) ∈ specRun [] [Op.conn 0 0 none] ∧
    ((connect (runOps 0 st0 [Op.conn 0 0 none]) 0 0 0 (TV.ofOpt none)).2 = false ∧
     (connect (runOps 0 st0 [Op.conn 0 0 none]) 0 0 0 (TV.ofOpt none)).1
        = runOps 0 st0 [Op.conn 0 0 none] ∧
     ((emit env0 ([Op.conn 0 0 none].length + 2)
        (connect (runOps 0 st0 [Op.conn 0 0 none]) 0 0 0 (TV.ofOpt none)).1 0 0).tr).count
          (0, none) = 1) :=
  ⟨by decide, connect_uniqueness 0 0 0 none [Op.conn 0 0 none] (by decide)⟩

/-- C10: dead records never match the duplicate scan.  In any state
reached by a sequence of operations on sender `S`, if `disconnect`
succeeds for a quadruple, an immediately following `connect` with the
same quadruple returns `true` — before any compaction pass has run —
and the next `emit` of that signal invokes the callback exactly
once. -/
theorem dead_records_invisible (S g cb : Nat) (ctx : Option Nat) (ops : List Op)
    (hd : (disconnect (runOps S st0 ops) S g cb (TV.ofOpt ctx)).2 = true) :
    (connect (disconnect (runOps S st0 ops) S g cb (TV.ofOpt ctx)).1 S g cb (TV.ofOpt ctx)).2
        = true ∧
    ((emit env0 (ops.length + 3)
        (connect (disconnect (runOps S st0 ops) S g cb (TV.ofOpt ctx)).1 S g cb
          (TV.ofOpt ctx)).1 S g).tr).count (cb, ctx) = 1 := by
  obtain ⟨ids', hinv, hlen⟩ := runOps_invE ops (Or.inl ⟨rfl, rfl, rfl⟩)
  simp only [List.length_nil, Nat.zero_add] at hlen
  rcases hinv with ⟨hs, hids, habs⟩ | hInv
  · rw [hs, disconnect_st0] at hd
    simp at hd
  · by_cases hm : (g, cb, ctx) ∈ specRun [] ops
    · have hdis := disconnect_of_mem hInv hm
      have hcount1 := count_one_of_nodup hInv.absNodup hm
      have hnotm : (g, cb, ctx) ∉ (specRun [] ops).erase (g, cb, ctx) := by
        intro hcon
        have h0 : ((specRun [] ops).erase (g, cb, ctx)).count (g, cb, ctx) = 0 := by
          rw [List.count_erase_self]
          omega
        have := List.count_pos_iff.mpr hcon
        omega
      have hconn := connect_of_not_mem hdis.2 hnotm
      refine ⟨hconn.1, ?_⟩
      rw [emit_trace hconn.2 (by simp; omega), count_specOrder]
      rw [List.count_append]
      have h0 : ((specRun [] ops).erase (g, cb, ctx)).count (g, cb, ctx) = 0 := by
        rw [List.count_erase_self]
        omega
      rw [h0]
      simp
    · rw [disconnect_of_not_mem hInv hm] at hd
      simp at hd

/-- Closed instance of `dead_records_invisible`: connect, disconnect
(returns true), reconnect, emit. -/
theorem dead_records_invisible_witness :
    (disconnect (runOps 0 st0 [Op.conn 0 0 none]) 0 0 0 (TV.ofOpt none)).2 = true ∧
    ((connect (disconnect (runOps 0 st0 [Op.conn 0 0 none]) 0 0 0 (TV.ofOpt none)).1
        0 0 0 (TV.ofOpt none)).2 = true ∧
     ((emit env0 ([Op.conn 0 0 none].length + 3)
        (connect (disconnect (runOps 0 st0 [Op.conn 0 0 none]) 0 0 0 (TV.ofOpt none)).1
          0 0 0 (TV.ofOpt none)).1 0 0).tr).count (0, none) = 1) :=
  ⟨by decide, dead_records_invisible 0 0 0 none [Op.conn 0 0 none] (by decide)⟩
/-- C1: snapshot isolation.  With callback `c1` connected to `(S, G)`
and `c1`'s body connecting `c2` to `(S, G)`, the first `emit` invokes
only `c1` — the callback connected from within that emission is not
invoked during the same `emit` call — while the next `emit` invokes
both `c1` and `c2`. -/
theorem snapshot_isolation (S G c1 c2 : Nat) (h : c1 ≠ c2) :
    (emit (envConnectDuring S G c2 c1) 20 (connect st0 S G c1 TV.undef).1 S G).tr
      = [(c1, none)] ∧
    (emit (envConnectDuring S G c2 c1) 20
        (emit (envConnectDuring S G c2 c1) 20 (connect st0 S G c1 TV.undef).1 S G).st S G).tr
      = [(c1, none), (c2, none)] := by
  simp [emit, exec, connect, addToSendersList, st0, lookupA, insertA, findConnection, getC, setC, getL, setL,
    TV.norm, receiverOf, envConnectDuring, h, Ne.symm h]

/-- Closed instance of `snapshot_isolation` at concrete identities. -/
theorem snapshot_isolation_witness :
    (0 : Nat) ≠ 1 ∧
    ((emit (envConnectDuring 0 0 1 0) 20 (connect st0 0 0 0 TV.undef).1 0 0).tr
       = [(0, none)] ∧
     (emit (envConnectDuring 0 0 1 0) 20
         (emit (envConnectDuring 0 0 1 0) 20 (connect st0 0 0 0 TV.undef).1 0 0).st 0 0).tr
       = [(0, none), (1, none)]) :=
  ⟨by decide, snapshot_isolation 0 0 0 1 (by decide)⟩

/-- C2: live-removal isolation.  With `c1` then `c2` connected to
`(S, G)` and `c1`'s body disconnecting `c2`, the emission invokes only
`c1`: the connection disconnected from within the emission by a
callback invoked earlier in the same pass is not invoked later in that
pass.  The walk did cross `c2`'s dead record (still physically linked),
so the deferred compaction ran, leaving only `c1`'s record linked. -/
theorem live_removal_isolation (S G c1 c2 : Nat) (h : c1 ≠ c2) :
    (emit (envDisconnectDuring S G c2 c1) 20
        (connect (connect st0 S G c1 TV.undef).1 S G c2 TV.undef).1 S G).tr
      = [(c1, none)] ∧
    (getC (emit (envDisconnectDuring S G c2 c1) 20
        (connect (connect st0 S G c1 TV.undef).1 S G c2 TV.undef).1 S G).st 1).callback
      = none ∧
    getL (emit (envDisconnectDuring S G c2 c1) 20
        (connect (connect st0 S G c1 TV.undef).1 S G c2 TV.undef).1 S G).st 0
      = ⟨0, some 0, some 0⟩ := by
  simp [emit, exec, connect, addToSendersList, disconnect, removeFromSendersList, recvOfConn, cleanList, cleanGo,
    st0, lookupA, insertA, eraseA, findConnection, getC, setC, getL, setL,
    TV.norm, receiverOf, envDisconnectDuring, h, Ne.symm h]

/-- Closed instance of `live_removal_isolation` at concrete
identities. -/
theorem live_removal_isolation_witness :
    (0 : Nat) ≠ 1 ∧
    ((emit (envDisconnectDuring 0 0 1 0) 20
        (connect (connect st0 0 0 0 TV.undef).1 0 0 1 TV.undef).1 0 0).tr = [(0, none)] ∧
     (getC (emit (envDisconnectDuring 0 0 1 0) 20
        (connect (connect st0 0 0 0 TV.undef).1 0 0 1 TV.undef).1 0 0).st 1).callback = none ∧
     getL (emit (envDisconnectDuring 0 0 1 0) 20
        (connect (connect st0 0 0 0 TV.undef).1 0 0 1 TV.undef).1 0 0).st 0
       = ⟨0, some 0, some 0⟩) :=
  ⟨by decide, live_removal_isolation 0 0 0 1 (by decide)⟩

set_option maxHeartbeats 4000000 in
/-- C3: fault propagation.  With `c1`, `c2`, `c3` connected in order
and `c2` throwing when invoked: the first emission invokes `c1` and
`c2`, propagates the exception (so `c3` is never invoked in that call),
and still decrements the nested-emission counter back to zero; after
disconnecting the failing `c2`, a subsequent emission invokes exactly
`c1` and `c3` and returns normally. -/
theorem fault_propagation (S G c1 c2 c3 : Nat)
    (h12 : c1 ≠ c2) (h13 : c1 ≠ c3) (h23 : c2 ≠ c3) :
    (emit (envThrowOn c2) 20
        (connect (connect (connect st0 S G c1 TV.undef).1 S G c2 TV.undef).1 S G c3 TV.undef).1
        S G).tr = [(c1, none), (c2, none)] ∧
    (emit (envThrowOn c2) 20
        (connect (connect (connect st0 S G c1 TV.undef).1 S G c2 TV.undef).1 S G c3 TV.undef).1
        S G).exn = true ∧
    (getL (emit (envThrowOn c2) 20
        (connect (connect (connect st0 S G c1 TV.undef).1 S G c2 TV.undef).1 S G c3 TV.undef).1
        S G).st 0).refs = 0 ∧
    (emit (envThrowOn c2) 20
        (disconnect (emit (envThrowOn c2) 20
            (connect (connect (connect st0 S G c1 TV.undef).1 S G c2 TV.undef).1
              S G c3 TV.undef).1 S G).st
          S G c2 TV.undef).1 S G).tr = [(c1, none), (c3, none)] ∧
    (emit (envThrowOn c2) 20
        (disconnect (emit (envThrowOn c2) 20
            (connect (connect (connect st0 S G c1 TV.undef).1 S G c2 TV.undef).1
              S G c3 TV.undef).1 S G).st
          S G c2 TV.undef).1 S G).exn = false := by
  simp [emit, exec, connect, addToSendersList, disconnect, removeFromSendersList, recvOfConn, cleanList, cleanGo,
    st0, lookupA, insertA, eraseA, findConnection, getC, setC, getL, setL,
    TV.norm, receiverOf, envThrowOn, h12, h13, h23, Ne.symm h12, Ne.symm h13, Ne.symm h23]

/-- C6, counterexample.  Connect one callback, disconnect it, then
emit: the post-emit cleanup pass finds no live connections and empties
the list (`first`/`last` null), yet the sender's entry is still present
in the Sender Index — `cleanList` never deletes the `senderMap` entry,
contradicting the claim that the entry is removed whenever the list
becomes empty. -/
theorem sender_entry_persists_counterexample :
    getL (emit env0 20 (disconnect (connect st0 0 0 0 TV.undef).1 0 0 0 TV.undef).1 0 0).st 0
      = ⟨0, none, none⟩ ∧
    lookupA
      (emit env0 20
        (disconnect (connect st0 0 0 0 TV.undef).1 0 0 0 TV.undef).1 0 0).st.senderMap 0
      = some 0 := by decide

/-- C6, amended: when the post-emit cleanup pass finds no live
connections, the sender's entry remains in the Sender Index, mapping to
an emptied list (null `first`/`last`); the entry is removed from the
Sender Index only by explicit bulk disconnect (`disconnectSender`). -/
theorem sender_entry_lifecycle (S G cb : Nat) :
    lookupA
      (emit env0 20 (disconnect (connect st0 S G cb TV.undef).1 S G cb TV.undef).1 S G).st.senderMap
      S = some 0 ∧
    getL (emit env0 20 (disconnect (connect st0 S G cb TV.undef).1 S G cb TV.undef).1 S G).st 0
      = ⟨0, none, none⟩ ∧
    lookupA
      (disconnectSender
        (emit env0 20 (disconnect (connect st0 S G cb TV.undef).1 S G cb TV.undef).1 S G).st
        S).senderMap S = none := by
  simp [emit, exec, connect, addToSendersList, disconnect, disconnectSender, discSenderGo, removeFromSendersList,
    recvOfConn, cleanList, cleanGo, st0, lookupA, insertA, eraseA, findConnection,
    getC, setC, getL, setL, TV.norm, receiverOf, env0]

/-- C9: a falsy `thisArg` (null, `0`, `''`, `false`, ...) is normalized
to `undefined`, so `connect` and `disconnect` behave identically to the
no-context calls on every state; in particular a connect with null
context registers the callback itself as the receiver identity, and a
following connect with context omitted is rejected as a duplicate. -/
theorem falsy_thisArg_normalization (s : St) (sd g cb : Nat) (tv : TV) (h : tv.norm = none) :
    connect s sd g cb tv = connect s sd g cb TV.undef ∧
    disconnect s sd g cb tv = disconnect s sd g cb TV.undef ∧
    (connect st0 sd g cb TV.nullv).2 = true ∧
    lookupA (connect st0 sd g cb TV.nullv).1.receiverMap (Rcv.cbR cb) = some 0 ∧
    (connect (connect st0 sd g cb TV.nullv).1 sd g cb TV.undef).2 = false := by
  refine ⟨by unfold connect; rw [h]; rfl, by unfold disconnect; rw [h]; rfl, ?_, ?_, ?_⟩ <;>
    simp [connect, addToSendersList, st0, lookupA, insertA, findConnection, getC, setC, getL, setL,
      TV.norm, receiverOf]

/-- Closed instance of `falsy_thisArg_normalization` with a null
context at concrete identities. -/
theorem falsy_thisArg_normalization_witness :
    TV.norm TV.nullv = none ∧
    (connect st0 0 0 0 TV.nullv = connect st0 0 0 0 TV.undef ∧
     disconnect st0 0 0 0 TV.nullv = disconnect st0 0 0 0 TV.undef ∧
     (connect st0 0 0 0 TV.nullv).2 = true ∧
     lookupA (connect st0 0 0 0 TV.nullv).1.receiverMap (Rcv.cbR 0) = some 0 ∧
     (connect (connect st0 0 0 0 TV.nullv).1 0 0 0 TV.undef).2 = false) :=
  ⟨by decide, falsy_thisArg_normalization st0 0 0 0 TV.nullv (by decide)⟩

set_option maxHeartbeats 4000000 in
/-- C7: bulk teardown correctness.  Sender side: with the same callback
`c1` connected to senders `S1` and `S2`, after `disconnectSender S1`
emitting any signal `G'` on `S1` invokes nothing while `S2`'s emission
still invokes `c1`.  Receiver side: with receiver identity `r` holding
connections on both `S1` and `S2`, and a third connection on `S2` with
a different receiver, after `disconnectReceiver r` no callback with
receiver identity `r` is invoked by either sender's emission, while the
other receiver's connection on `S2` is still invoked. -/
theorem bulk_teardown_correctness (S1 S2 G G' c1 c2 c3 r : Nat) (hS : S1 ≠ S2) :
    ((emit env0 20
        (disconnectSender
          (connect (connect st0 S1 G c1 TV.undef).1 S2 G c1 TV.undef).1 S1) S1 G').tr = [] ∧
     (emit env0 20
        (disconnectSender
          (connect (connect st0 S1 G c1 TV.undef).1 S2 G c1 TV.undef).1 S1) S2 G).tr
        = [(c1, none)]) ∧
    ((emit env0 20
        (disconnectReceiver
          (connect (connect (connect st0 S1 G c1 (TV.obj r)).1 S2 G c2 (TV.obj r)).1
            S2 G c3 TV.undef).1 (Rcv.ctxR r)) S1 G).tr = [] ∧
     (emit env0 20
        (disconnectReceiver
          (connect (connect (connect st0 S1 G c1 (TV.obj r)).1 S2 G c2 (TV.obj r)).1
            S2 G c3 TV.undef).1 (Rcv.ctxR r)) S2 G).tr = [(c3, none)]) := by
  simp [emit, exec, connect, addToSendersList, disconnectSender, discSenderGo, disconnectReceiver, discRecvGo,
    removeFromSendersList, recvOfConn, cleanList, cleanGo, st0, lookupA, insertA, eraseA,
    findConnection, getC, setC, getL, setL, TV.norm, receiverOf, env0, hS, Ne.symm hS]

/-- Closed instance of `bulk_teardown_correctness` at concrete
identities. -/
theorem bulk_teardown_correctness_witness :
    (0 : Nat) ≠ 1 ∧
    (((emit env0 20
        (disconnectSender
          (connect (connect st0 0 0 0 TV.undef).1 1 0 0 TV.undef).1 0) 0 5).tr = [] ∧
      (emit env0 20
        (disconnectSender
          (connect (connect st0 0 0 0 TV.undef).1 1 0 0 TV.undef).1 0) 1 0).tr
        = [(0, none)]) ∧
     ((emit env0 20
        (disconnectReceiver
          (connect (connect (connect st0 0 0 0 (TV.obj 7)).1 1 0 1 (TV.obj 7)).1
            1 0 2 TV.undef).1 (Rcv.ctxR 7)) 0 0).tr = [] ∧
      (emit env0 20
        (disconnectReceiver
          (connect (connect (connect st0 0 0 0 (TV.obj 7)).1 1 0 1 (TV.obj 7)).1
            1 0 2 TV.undef).1 (Rcv.ctxR 7)) 1 0).tr = [(2, none)])) :=
  ⟨by decide, bulk_teardown_correctness 0 1 0 5 0 1 2 7 (by decide)⟩

set_option maxHeartbeats 4000000 in
/-- C8: membership discipline of connection records.  Three records
share receiver identity `r`: ids `0` and `2` in sender `S`'s list, id
`1` in sender `S2`'s list, receiver chain `[2, 1, 0]`.  After
disconnecting the middle record (id `1`): the disconnect succeeds; it
is removed from the receiver index eagerly, fixing the neighbour links
(`2.nextSender = 0`, `0.prevSender = 2`) while the receiver entry stays
because the chain is non-empty; the record is dead but still linked in
its sender list; every record still belongs to at most one sender's
list (`[0, 2]` and `[1]` are disjoint) and at most one receiver's
chain (`[2, 0]`).  Disconnecting the remaining two records deletes the
receiver entry once its chain is empty; and the dead record stays in
`S2`'s list until a later emit's compaction removes it. -/
theorem connection_membership_discipline (S S2 G c1 c2 c3 r : Nat)
    (hS : S ≠ S2) (h13 : c1 ≠ c3) :
    (disconnect
        (connect (connect (connect st0 S G c1 (TV.obj r)).1 S2 G c2 (TV.obj r)).1
          S G c3 (TV.obj r)).1 S2 G c2 (TV.obj r)).2 = true ∧
    lookupA
      (disconnect
        (connect (connect (connect st0 S G c1 (TV.obj r)).1 S2 G c2 (TV.obj r)).1
          S G c3 (TV.obj r)).1 S2 G c2 (TV.obj r)).1.receiverMap (Rcv.ctxR r) = some 2 ∧
    (getC (disconnect
        (connect (connect (connect st0 S G c1 (TV.obj r)).1 S2 G c2 (TV.obj r)).1
          S G c3 (TV.obj r)).1 S2 G c2 (TV.obj r)).1 2).nextSender = some 0 ∧
    (getC (disconnect
        (connect (connect (connect st0 S G c1 (TV.obj r)).1 S2 G c2 (TV.obj r)).1
          S G c3 (TV.obj r)).1 S2 G c2 (TV.obj r)).1 0).prevSender = some 2 ∧
    (getC (disconnect
        (connect (connect (connect st0 S G c1 (TV.obj r)).1 S2 G c2 (TV.obj r)).1
          S G c3 (TV.obj r)).1 S2 G c2 (TV.obj r)).1 1).callback = none ∧
    senderChain (disconnect
        (connect (connect (connect st0 S G c1 (TV.obj r)).1 S2 G c2 (TV.obj r)).1
          S G c3 (TV.obj r)).1 S2 G c2 (TV.obj r)).1 1 = [1] ∧
    senderChain (disconnect
        (connect (connect (connect st0 S G c1 (TV.obj r)).1 S2 G c2 (TV.obj r)).1
          S G c3 (TV.obj r)).1 S2 G c2 (TV.obj r)).1 0 = [0, 2] ∧
    receiverChain (disconnect
        (connect (connect (connect st0 S G c1 (TV.obj r)).1 S2 G c2 (TV.obj r)).1
          S G c3 (TV.obj r)).1 S2 G c2 (TV.obj r)).1 (Rcv.ctxR r) = [2, 0] ∧
    lookupA
      (disconnect
        (disconnect
          (disconnect
            (connect (connect (connect st0 S G c1 (TV.obj r)).1 S2 G c2 (TV.obj r)).1
              S G c3 (TV.obj r)).1 S2 G c2 (TV.obj r)).1
          S G c1 (TV.obj r)).1
        S G c3 (TV.obj r)).1.receiverMap (Rcv.ctxR r) = none ∧
    (emit env0 20 (disconnect
        (connect (connect (connect st0 S G c1 (TV.obj r)).1 S2 G c2 (TV.obj r)).1
          S G c3 (TV.obj r)).1 S2 G c2 (TV.obj r)).1 S2 G).tr = [] ∧
    senderChain (emit env0 20 (disconnect
        (connect (connect (connect st0 S G c1 (TV.obj r)).1 S2 G c2 (TV.obj r)).1
          S G c3 (TV.obj r)).1 S2 G c2 (TV.obj r)).1 S2 G).st 1 = [] := by
  simp [emit, exec, connect, addToSendersList, disconnect, removeFromSendersList, recvOfConn, cleanList, cleanGo,
    senderChain, receiverChain, chainFrom, st0, lookupA, insertA, eraseA, findConnection,
    getC, setC, getL, setL, TV.norm, receiverOf, env0, hS, Ne.symm hS, h13, Ne.symm h13]

/-- Closed instance of `connection_membership_discipline` at concrete
identities. -/
theorem connection_membership_discipline_witness :
    ((0 : Nat) ≠ 1 ∧ (0 : Nat) ≠ 2) ∧
    ((disconnect
        (connect (connect (connect st0 0 0 0 (TV.obj 5)).1 1 0 1 (TV.obj 5)).1
          0 0 2 (TV.obj 5)).1 1 0 1 (TV.obj 5)).2 = true ∧
     lookupA
       (disconnect
         (connect (connect (connect st0 0 0 0 (TV.obj 5)).1 1 0 1 (TV.obj 5)).1
           0 0 2 (TV.obj 5)).1 1 0 1 (TV.obj 5)).1.receiverMap (Rcv.ctxR 5) = some 2 ∧
     (getC (disconnect
         (connect (connect (connect st0 0 0 0 (TV.obj 5)).1 1 0 1 (TV.obj 5)).1
           0 0 2 (TV.obj 5)).1 1 0 1 (TV.obj 5)).1 2).nextSender = some 0 ∧
     (getC (disconnect
         (connect (connect (connect st0 0 0 0 (TV.obj 5)).1 1 0 1 (TV.obj 5)).1
           0 0 2 (TV.obj 5)).1 1 0 1 (TV.obj 5)).1 0).prevSender = some 2 ∧
     (getC (disconnect
         (connect (connect (connect st0 0 0 0 (TV.obj 5)).1 1 0 1 (TV.obj 5)).1
           0 0 2 (TV.obj 5)).1 1 0 1 (TV.obj 5)).1 1).callback = none ∧
     senderChain (disconnect
         (connect (connect (connect st0 0 0 0 (TV.obj 5)).1 1 0 1 (TV.obj 5)).1
           0 0 2 (TV.obj 5)).1 1 0 1 (TV.obj 5)).1 1 = [1] ∧
     senderChain (disconnect
         (connect (connect (connect st0 0 0 0 (TV.obj 5)).1 1 0 1 (TV.obj 5)).1
           0 0 2 (TV.obj 5)).1 1 0 1 (TV.obj 5)).1 0 = [0, 2] ∧
     receiverChain (disconnect
         (connect (connect (connect st0 0 0 0 (TV.obj 5)).1 1 0 1 (TV.obj 5)).1
           0 0 2 (TV.obj 5)).1 1 0 1 (TV.obj 5)).1 (Rcv.ctxR 5) = [2, 0] ∧
     lookupA
       (disconnect
         (disconnect
           (disconnect
             (connect (connect (connect st0 0 0 0 (TV.obj 5)).1 1 0 1 (TV.obj 5)).1
               0 0 2 (TV.obj 5)).1 1 0 1 (TV.obj 5)).1
           0 0 0 (TV.obj 5)).1
         0 0 2 (TV.obj 5)).1.receiverMap (Rcv.ctxR 5) = none ∧
     (emit env0 20 (disconnect
         (connect (connect (connect st0 0 0 0 (TV.obj 5)).1 1 0 1 (TV.obj 5)).1
           0 0 2 (TV.obj 5)).1 1 0 1 (TV.obj 5)).1 1 0).tr = [] ∧
     senderChain (emit env0 20 (disconnect
         (connect (connect (connect st0 0 0 0 (TV.obj 5)).1 1 0 1 (TV.obj 5)).1
           0 0 2 (TV.obj 5)).1 1 0 1 (TV.obj 5)).1 1 0).st 1 = []) :=
  ⟨by decide, connection_membership_discipline 0 1 0 0 1 2 5 (by decide) (by decide)⟩

/-- Closed instance of `fault_propagation` at concrete identities. -/
theorem fault_propagation_witness :
    ((0 : Nat) ≠ 1 ∧ (0 : Nat) ≠ 2 ∧ (1 : Nat) ≠ 2) ∧
    ((emit (envThrowOn 1) 20
        (connect (connect (connect st0 0 0 0 TV.undef).1 0 0 1 TV.undef).1 0 0 2 TV.undef).1
        0 0).tr = [(0, none), (1, none)] ∧
     (emit (envThrowOn 1) 20
        (connect (connect (connect st0 0 0 0 TV.undef).1 0 0 1 TV.undef).1 0 0 2 TV.undef).1
        0 0).exn = true ∧
     (getL (emit (envThrowOn 1) 20
        (connect (connect (connect st0 0 0 0 TV.undef).1 0 0 1 TV.undef).1 0 0 2 TV.undef).1
        0 0).st 0).refs = 0 ∧
     (emit (envThrowOn 1) 20
        (disconnect (emit (envThrowOn 1) 20
            (connect (connect (connect st0 0 0 0 TV.undef).1 0 0 1 TV.undef).1
              0 0 2 TV.undef).1 0 0).st
          0 0 1 TV.undef).1 0 0).tr = [(0, none), (2, none)] ∧
     (emit (envThrowOn 1) 20
        (disconnect (emit (envThrowOn 1) 20
            (connect (connect (connect st0 0 0 0 TV.undef).1 0 0 1 TV.undef).1
              0 0 2 TV.undef).1 0 0).st
          0 0 1 TV.undef).1 0 0).exn = false) :=
  ⟨by decide, fault_propagation 0 0 0 1 2 (by decide) (by decide) (by decide)⟩

end Phos
